import Mathlib

/-!
Verification of the deno-parsers-ts parser-combinator engine.

The combinators (`sequenceOf`, `choice`, `many`, `between`, `join`,
`joinWJR`, `manyJoin`, `manyJoinWJR`, `contextual`, `stateContextual`) are
translated from `src/ParserCombinators.ts`.  The parse-state and parser
core (`ParserState` with its `update`/`errorify`/`resultify` operations,
`Parser` with `map`/`mapError`/`chain`, `Parser.void`, `succeed`) lives in
`Parser.ts` / `ParserState.ts` / `ParserCreators.ts`, which are not part of
the sources here; those definitions are modelled from the specification
(sections 3, 4.1 and 6) and are marked as such.

JavaScript result values are modelled by the type `Val`; a possibly-absent
(`undefined`) result is `Option Val`.  The unbounded `while` loops of
`many` and `manyJoin` are modelled with explicit fuel: the fueled runner
returns `none` when the loop has not terminated within the given fuel, and
`some finalState` as soon as it has.
-/

namespace DenoParsers

/-- Universe of result values produced by parsers (strings, numbers, and
the arrays of possibly-absent values that the sequencing combinators
build). -/
inductive Val : Type where
  | str : String → Val
  | num : Int → Val
  | list : List (Option Val) → Val

/-- Modelled from the spec: the structured failure record of
`ParserState.ts` (spec section 3), with the fields that the combinators in
`src/ParserCombinators.ts` actually read and write: `info`, `combinator`,
`index`, and the optional counters `nparser` (set by `sequenceOf`) and
`nmatches` (set by `many` / `manyJoin`). -/
structure ParserError : Type where
  info : String
  combinator : String
  index : Nat
  nparser : Option Int
  nmatches : Option Nat

/-- Modelled from the spec: the immutable parse state of `ParserState.ts`
(spec section 3): input, current index, last result (absent = JavaScript
`undefined`), and optional error record. -/
structure ParserState : Type where
  input : String
  index : Nat
  result : Option Val
  error : Option ParserError

/-- Modelled from the spec: `advance` / `update` (spec section 3) —
successful state with updated position and result, error cleared. -/
def ParserState.update (s : ParserState) (newIndex : Nat) (newResult : Option Val) :
    ParserState :=
  { s with index := newIndex, result := newResult, error := none }

/-- Modelled from the spec: `fail` / `errorify` (spec section 3) —
erroring state, index preserved; failed steps carry an absent result
(spec section 4.2: the appended result "is absent for failed steps"). -/
def ParserState.errorify (s : ParserState) (e : ParserError) : ParserState :=
  { s with result := none, error := some e }

/-- Modelled from the spec: `replaceResult` / `resultify` (spec section 3)
— successful state with the same index, error cleared, result
overwritten. -/
def ParserState.resultify (s : ParserState) (newResult : Option Val) : ParserState :=
  { s with result := newResult, error := none }

/-- Modelled from the spec: a `Parser` (spec section 3) wraps exactly one
state-transition function. -/
structure Parser : Type where
  transformer : ParserState → ParserState

/-- Modelled from the spec: value-map (spec section 4.1) — runs the
original parser and, only if it succeeded, applies the function to the
result, preserving index; errors pass through unchanged. -/
def Parser.map (p : Parser) (fn : Option Val → Option Val) : Parser :=
  ⟨fun s =>
    let ns := p.transformer s
    match ns.error with
    | some _ => ns
    | none => ns.resultify (fn ns.result)⟩

/-- Modelled from the spec: error-map (spec section 4.1) — runs the
original parser and, only if the resulting state failed, replaces the
error record via the function (which receives the failing state). -/
def Parser.mapError (p : Parser) (fn : ParserState → ParserError) : Parser :=
  ⟨fun s =>
    let ns := p.transformer s
    match ns.error with
    | none => ns
    | some _ => ns.errorify (fn ns)⟩

/-- Modelled from the spec: dependent-chain / monadic bind (spec section
4.1) — runs the original parser; on success calls the function with the
result to obtain the next parser and runs it on the post-success state; on
failure short-circuits without calling the function. -/
def Parser.chain (p : Parser) (fn : Option Val → Parser) : Parser :=
  ⟨fun s =>
    let ns := p.transformer s
    match ns.error with
    | some _ => ns
    | none => (fn ns.result).transformer ns⟩

/-- Modelled from the spec: the distinguished trivial parser
(`Parser.void`, spec section 4.1) — succeeds unconditionally without
consuming input; per the leaf-matcher contract (spec section 6) an
erroring state is returned unchanged. -/
def Parser.void : Parser := ⟨fun s => s⟩

/-- Modelled from the spec: the `succeed` constructor (spec sections 4.1
and 6) — always succeeds with the given value and consumes nothing; an
erroring state is returned unchanged per the leaf-matcher contract. -/
def succeed (v : Option Val) : Parser :=
  ⟨fun s =>
    match s.error with
    | some _ => s
    | none => s.resultify v⟩

/-! ## sequenceOf (src/ParserCombinators.ts, lines 11-38) -/

/-- Loop state of `sequenceOf`: accumulated results, threaded state, the
recorded candidate error, the success counter `psucceed`, and `lastIndex`
(initialised to `0` in the source). -/
structure SeqAcc : Type where
  results : List (Option Val)
  nextState : ParserState
  finalError : Option ParserError
  psucceed : Int
  lastIndex : Nat

/-- One iteration of the `sequenceOf` loop body: run the parser on the
threaded state; on error decrement `psucceed` and record the error, on
success update `lastIndex`; then push the resulting state's result and
increment `psucceed`. -/
def seqStep (p : Parser) (acc : SeqAcc) : SeqAcc :=
  let nextState := p.transformer acc.nextState
  let acc1 :=
    match nextState.error with
    | some e =>
        { acc with nextState := nextState, finalError := some e,
                   psucceed := acc.psucceed - 1 }
    | none => { acc with nextState := nextState, lastIndex := nextState.index }
  { acc1 with results := acc1.results ++ [nextState.result],
              psucceed := acc1.psucceed + 1 }

/-- The `for` loop of `sequenceOf`, started from the source's initial
values (`results = []`, `nextState = inputState`, no error, `psucceed = 0`,
`lastIndex = 0`). -/
def seqRun (parsers : List Parser) (inputState : ParserState) : SeqAcc :=
  parsers.foldl (fun acc p => seqStep p acc) ⟨[], inputState, none, 0, 0⟩

/-- `sequenceOf` from src/ParserCombinators.ts: runs the parsers in order
on the threaded state; fails (stamping `sequenceOf` and the success count)
when an error was recorded and `psucceed < min || min == -1`; otherwise
succeeds, advancing to `lastIndex` with the accumulated results. -/
def sequenceOf (parsers : List Parser) (min : Int) : Parser :=
  ⟨fun inputState =>
    match inputState.error with
    | some _ => inputState
    | none =>
      let acc := seqRun parsers inputState
      match acc.finalError with
      | some fe =>
          if acc.psucceed < min ∨ min = -1 then
            acc.nextState.errorify
              { fe with combinator := "sequenceOf", nparser := some acc.psucceed }
          else acc.nextState.update acc.lastIndex (some (Val.list acc.results))
      | none => acc.nextState.update acc.lastIndex (some (Val.list acc.results))⟩

/-! ## choice (src/ParserCombinators.ts, lines 42-56) -/

/-- The `for` loop of `choice`: try each parser on the original incoming
state, returning the first non-erroring output; if none succeeds, fail
with the aggregate `choice` error at the original index. -/
def choiceGo (parsers : List Parser) (inputState : ParserState) : ParserState :=
  match parsers with
  | [] =>
      inputState.errorify
        ⟨"Unable to match with any parser", "choice", inputState.index, none, none⟩
  | p :: rest =>
    let nextState := p.transformer inputState
    match nextState.error with
    | none => nextState
    | some _ => choiceGo rest inputState

/-- `choice` from src/ParserCombinators.ts. -/
def choice (parsers : List Parser) : Parser :=
  ⟨fun inputState =>
    match inputState.error with
    | some _ => inputState
    | none => choiceGo parsers inputState⟩

/-! ## many (src/ParserCombinators.ts, lines 61-84) -/

/-- The failure message shared by `many` and `__manyJoin`. -/
def minMsg (min : Int) (n : Nat) : String :=
  s!"Unable to match at least {min} input(s), matched {n} instead"

/-- The `while` loop of `many`, with explicit fuel: repeatedly apply the
parser to the threaded state, accumulating the results of successful
attempts, until an attempt fails (returning the accumulated results and
the failing attempt's state) or the fuel runs out (`none`). -/
def manyGo (p : Parser) : Nat → ParserState → List (Option Val) →
    Option (List (Option Val) × ParserState) :=
  fun fuel s results =>
    match fuel with
    | 0 => none
    | Nat.succ fuel =>
      let ns := p.transformer s
      match ns.error with
      | some _ => some (results, ns)
      | none => manyGo p fuel ns (results ++ [ns.result])

/-- `many` from src/ParserCombinators.ts, as a fueled transformer: on an
erroring input return it unchanged; otherwise run the loop, then fail with
a `many` error at the input index when fewer than `min` attempts
succeeded, else finalize with `resultify` on the loop's final state. -/
def manyRun (p : Parser) (min : Int) (fuel : Nat) (inputState : ParserState) :
    Option ParserState :=
  match inputState.error with
  | some _ => some inputState
  | none =>
    (manyGo p fuel inputState []).map (fun out =>
      let results := out.1
      let ns := out.2
      if (results.length : Int) < min then
        inputState.errorify
          ⟨minMsg min results.length, "many", inputState.index, none,
            some results.length⟩
      else ns.resultify (some (Val.list results)))

/-! ## between (src/ParserCombinators.ts, lines 89-93) -/

/-- `between` from src/ParserCombinators.ts: `sequenceOf [left, content,
right]` with `min = -1`, mapped to the middle result. -/
def between (left right : Parser) (content : Parser) : Parser :=
  (sequenceOf [left, content, right] (-1)).map (fun r =>
    match r with
    | some (Val.list l) => (l.get? 1).join
    | _ => none)

/-! ## join / joinWJR (src/ParserCombinators.ts, lines 104-144) -/

/-- The wrapping applied to each non-first parser when joiner results are
excluded: consume a joiner, then the parser, keeping only the parser's own
result (`sequenceOf [joiner, parser]` mapped to element 1). -/
def wrapJoin (joiner p : Parser) : Parser :=
  (sequenceOf [joiner, p] (-1)).map (fun r =>
    match r with
    | some (Val.list l) => (l.get? 1).join
    | _ => none)

/-- Tail of the interleaved parser list built by `__join`: for each
non-first parser, either insert the joiner itself (`joinResults = true`)
or wrap the parser with `wrapJoin` (`joinResults = false`). -/
def joinedTail (joiner : Parser) (joinResults : Bool) : List Parser → List Parser
  | [] => []
  | p :: rest =>
      (if joinResults then [joiner, p] else [wrapJoin joiner p]) ++
        joinedTail joiner joinResults rest

/-- The full interleaved parser list built by `__join`: the first parser
is pushed bare, the rest via `joinedTail`. -/
def joinedParsers (parsers : List Parser) (joiner : Parser) (joinResults : Bool) :
    List Parser :=
  match parsers with
  | [] => []
  | p :: rest => p :: joinedTail joiner joinResults rest

/-- `__join` from src/ParserCombinators.ts: `sequenceOf` over the
interleaved list, with the bubbling error restamped with combinator name
`join`. -/
def __join (parsers : List Parser) (joiner : Parser) (min : Int)
    (joinResults : Bool) : Parser :=
  (sequenceOf (joinedParsers parsers joiner joinResults) min).mapError (fun s =>
    { s.error.getD ⟨"", "", 0, none, none⟩ with combinator := "join" })

/-- `join` from src/ParserCombinators.ts (joiner results excluded). -/
def join (parsers : List Parser) (joiner : Parser) (min : Int) : Parser :=
  __join parsers joiner min false

/-- `joinWJR` from src/ParserCombinators.ts (joiner results included). -/
def joinWJR (parsers : List Parser) (joiner : Parser) (min : Int) : Parser :=
  __join parsers joiner min true

/-! ## manyJoin / manyJoinWJR (src/ParserCombinators.ts, lines 151-207) -/

/-- The prelude of each `__manyJoin` iteration: on the first iteration do
nothing; afterwards run the joiner on the threaded state — on its error
set the `done` flag, on its success optionally push its result.  Returns
(threaded state, accumulated results, done flag). -/
def manyJoinPre (joiner : Parser) (joinResults : Bool) (starts : Bool)
    (s : ParserState) (results : List (Option Val)) :
    ParserState × List (Option Val) × Bool :=
  if starts then (s, results, false)
  else
    let sj := joiner.transformer s
    match sj.error with
    | some _ => (sj, results, true)
    | none => (sj, if joinResults then results ++ [sj.result] else results, false)

/-- The `while` loop of `__manyJoin`, with explicit fuel: each iteration
runs the prelude (`manyJoinPre`), then the main parser; the loop exits
when either errored, returning the accumulated results, the final threaded
state, and the count `np` of successful main-parser matches. -/
def manyJoinGo (parser joiner : Parser) (joinResults : Bool) :
    Nat → Bool → ParserState → List (Option Val) → Nat →
    Option (List (Option Val) × ParserState × Nat) :=
  fun fuel starts s results np =>
    match fuel with
    | 0 => none
    | Nat.succ fuel =>
      let pre := manyJoinPre joiner joinResults starts s results
      let s2 := parser.transformer pre.1
      match s2.error with
      | some _ => some (pre.2.1, s2, np)
      | none =>
        if pre.2.2 then some (pre.2.1 ++ [s2.result], s2, np + 1)
        else manyJoinGo parser joiner joinResults fuel false s2
          (pre.2.1 ++ [s2.result]) (np + 1)

/-- `__manyJoin` from src/ParserCombinators.ts, as a fueled transformer:
on an erroring input return it unchanged; otherwise run the loop, then
fail with a `manyJoin` error (whose `nmatches` is the length of the
accumulated result list) when `np < min`, else finalize with `resultify`
on the loop's final state. -/
def manyJoinRun (parser joiner : Parser) (min : Int) (joinResults : Bool)
    (fuel : Nat) (inputState : ParserState) : Option ParserState :=
  match inputState.error with
  | some _ => some inputState
  | none =>
    (manyJoinGo parser joiner joinResults fuel true inputState [] 0).map (fun out =>
      let results := out.1
      let ns := out.2.1
      let np := out.2.2
      if (np : Int) < min then
        inputState.errorify
          ⟨minMsg min results.length, "manyJoin", inputState.index, none,
            some results.length⟩
      else ns.resultify (some (Val.list results)))

/-- `manyJoin` from src/ParserCombinators.ts (joiner results excluded). -/
def manyJoin (parser joiner : Parser) (min : Int) (fuel : Nat)
    (inputState : ParserState) : Option ParserState :=
  manyJoinRun parser joiner min false fuel inputState

/-- `manyJoinWJR` from src/ParserCombinators.ts (joiner results
included). -/
def manyJoinWJR (parser joiner : Parser) (min : Int) (fuel : Nat)
    (inputState : ParserState) : Option ParserState :=
  manyJoinRun parser joiner min true fuel inputState

/-! ## contextual (src/ParserCombinators.ts, lines 214-235)

A generator of type `Generator<Parser<T>, TResult, T>` is embedded as a
strategy tree `GenM`: at each suspension point it either completes with a
final value or yields a value (a parser, or — to model the dynamic
`instanceof Parser` check — something that is not a parser) together with
a continuation that consumes the yielded parser's result. -/

/-- A value yielded by a `contextual` generator: either an actual parser
or a non-parser value (which the source rejects with a thrown
exception). -/
inductive Yielded : Type where
  | isParser : Parser → Yielded
  | notParser : Yielded

/-- Strategy tree of a `contextual` generator. -/
inductive GenM : Type where
  | done : Option Val → GenM
  | yieldStep : Yielded → (Option Val → GenM) → GenM

/-- The recursive `runStep` driver of `contextual`, evaluated on a state.
A thrown exception (yielding a non-parser) is `Except.error`; a normal
outcome is `Except.ok` of the resulting state.  Each level wraps the rest
of the chain in an error-map stamping combinator name `contextual`, so a
parse failure bubbling out of a yielded parser (or out of the rest of the
chain) is restamped at every level. -/
def contextualGo : GenM → ParserState → Except String ParserState
  | GenM.done v, s => Except.ok ((succeed v).transformer s)
  | GenM.yieldStep y k, s =>
    match y with
    | Yielded.notParser =>
        Except.error "contextual: yielded values must always be parsers"
    | Yielded.isParser P =>
      let ns := P.transformer s
      match ns.error with
      | some e => Except.ok (ns.errorify { e with combinator := "contextual" })
      | none =>
        match contextualGo (k ns.result) ns with
        | Except.error msg => Except.error msg
        | Except.ok out =>
          match out.error with
          | some e2 => Except.ok (out.errorify { e2 with combinator := "contextual" })
          | none => Except.ok out

/-- `contextual` from src/ParserCombinators.ts: `Parser.void` chained into
the generator driver.  On an erroring input, `Parser.void` returns it
unchanged and `chain` short-circuits without ever creating the generator,
so the input is returned unchanged inside `Except.ok`. -/
def contextualRun (g : GenM) (inputState : ParserState) : Except String ParserState :=
  match inputState.error with
  | some _ => Except.ok inputState
  | none => contextualGo g inputState

/-! ## stateContextual (src/ParserCombinators.ts, lines 238-257) -/

/-- A value yielded by a `stateContextual` generator. -/
inductive SYielded : Type where
  | isParser : Parser → SYielded
  | notParser : SYielded

/-- Strategy tree of a `stateContextual` generator: it completes with a
full parse state of its own choosing, and its continuations consume the
full output state of each yielded parser. -/
inductive SGen : Type where
  | done : ParserState → SGen
  | yieldStep : SYielded → (ParserState → SGen) → SGen

/-- The recursive `transformStep` driver of `stateContextual`: resume the
generator; on completion return its state; on a yielded parser, run it on
the threaded state and recurse with the output state. -/
def stateContextualGo : SGen → ParserState → Except String ParserState
  | SGen.done out, _ => Except.ok out
  | SGen.yieldStep y k, next =>
    match y with
    | SYielded.notParser =>
        Except.error "stateContextual: yielded values must always be parsers"
    | SYielded.isParser P =>
        stateContextualGo (k (P.transformer next)) (P.transformer next)

/-- `stateContextual` from src/ParserCombinators.ts.  Note that, unlike
every other combinator, its transition function performs no
`inputState.error` check: the generator is driven even on an erroring
input state. -/
def stateContextualRun (g : SGen) (inputState : ParserState) :
    Except String ParserState :=
  stateContextualGo g inputState

/-! ## Projection lemmas for the state-construction operations -/

@[simp] theorem update_input (s : ParserState) (i : Nat) (r : Option Val) :
    (s.update i r).input = s.input := rfl

@[simp] theorem update_index (s : ParserState) (i : Nat) (r : Option Val) :
    (s.update i r).index = i := rfl

@[simp] theorem update_result (s : ParserState) (i : Nat) (r : Option Val) :
    (s.update i r).result = r := rfl

@[simp] theorem update_error (s : ParserState) (i : Nat) (r : Option Val) :
    (s.update i r).error = none := rfl

@[simp] theorem errorify_input (s : ParserState) (e : ParserError) :
    (s.errorify e).input = s.input := rfl

@[simp] theorem errorify_index (s : ParserState) (e : ParserError) :
    (s.errorify e).index = s.index := rfl

@[simp] theorem errorify_result (s : ParserState) (e : ParserError) :
    (s.errorify e).result = none := rfl

@[simp] theorem errorify_error (s : ParserState) (e : ParserError) :
    (s.errorify e).error = some e := rfl

@[simp] theorem resultify_input (s : ParserState) (r : Option Val) :
    (s.resultify r).input = s.input := rfl

@[simp] theorem resultify_index (s : ParserState) (r : Option Val) :
    (s.resultify r).index = s.index := rfl

@[simp] theorem resultify_result (s : ParserState) (r : Option Val) :
    (s.resultify r).result = r := rfl

@[simp] theorem resultify_error (s : ParserState) (r : Option Val) :
    (s.resultify r).error = none := rfl

/-! ## Leaf-matcher fixtures

Concrete leaf matchers (spec section 1 places their construction out of
scope; section 6 gives their contract).  They are used as inputs to the
combinators in witnesses and counterexamples. -/

/-- A convenience constructor for plain error records. -/
def mkErr (msg : String) (cname : String) (i : Nat) : ParserError :=
  ⟨msg, cname, i, none, none⟩

/-- Leaf matcher consuming one decimal digit, producing it as a string. -/
def digitP : Parser :=
  ⟨fun st =>
    match st.error with
    | some _ => st
    | none =>
      match st.input.data.get? st.index with
      | some ch =>
          if ch.isDigit then st.update (st.index + 1) (some (Val.str (String.mk [ch])))
          else st.errorify (mkErr "expected digit" "digit" st.index)
      | none => st.errorify (mkErr "unexpected end of input" "digit" st.index)⟩

/-- Leaf matcher consuming one decimal digit, producing its numeric
value. -/
def numP : Parser :=
  ⟨fun st =>
    match st.error with
    | some _ => st
    | none =>
      match st.input.data.get? st.index with
      | some ch =>
          if ch.isDigit then
            st.update (st.index + 1) (some (Val.num ((ch.toNat : Int) - 48)))
          else st.errorify (mkErr "expected digit" "num" st.index)
      | none => st.errorify (mkErr "unexpected end of input" "num" st.index)⟩

/-- Leaf matcher consuming one comma. -/
def commaP : Parser :=
  ⟨fun st =>
    match st.error with
    | some _ => st
    | none =>
      match st.input.data.get? st.index with
      | some ch =>
          if ch = ',' then st.update (st.index + 1) (some (Val.str ","))
          else st.errorify (mkErr "expected comma" "char" st.index)
      | none => st.errorify (mkErr "unexpected end of input" "char" st.index)⟩

/-- Leaf matcher that always fails at the current index without consuming
input. -/
def failP : Parser :=
  ⟨fun st =>
    match st.error with
    | some _ => st
    | none => st.errorify (mkErr "always fails" "fail" st.index)⟩

/-- Fresh parse state at index 0. -/
def initSt (inp : String) : ParserState := ⟨inp, 0, none, none⟩

/-- Fresh parse state at a given index. -/
def stAt (inp : String) (i : Nat) : ParserState := ⟨inp, i, none, none⟩

/-! ## Well-behavedness of leaf matchers (the contract of spec section 6) -/

/-- The short-circuit half of the leaf-matcher contract: an erroring state
is returned unchanged. -/
def shortCircuits (p : Parser) : Prop :=
  ∀ s e, s.error = some e → p.transformer s = s

/-- The position half of the leaf-matcher contract: on a successful input
state the index never moves backwards (whether the attempt succeeds or
fails). -/
def monotoneOnOk (p : Parser) : Prop :=
  ∀ s, s.error = none → s.index ≤ (p.transformer s).index

/-- A well-behaved parser: both halves of the leaf-matcher contract. -/
def wb (p : Parser) : Prop := shortCircuits p ∧ monotoneOnOk p

theorem digitP_shortCircuits : shortCircuits digitP := by
  intro s e h
  simp [digitP, h]

theorem digitP_wb : wb digitP := by
  refine ⟨digitP_shortCircuits, ?_⟩
  intro s h
  simp only [digitP, h]
  rcases hg : s.input.data.get? s.index with _ | ch <;> simp [hg]
  split <;> simp

theorem digitP_fail_index :
    ∀ st, (digitP.transformer st).error.isSome → (digitP.transformer st).index = st.index := by
  intro st h
  rcases hs : st.error with _ | e
  · simp only [digitP, hs] at h ⊢
    rcases hg : st.input.data.get? st.index with _ | ch
    · simp [hg]
    · simp only [hg] at h ⊢
      by_cases hd : ch.isDigit = true <;> simp [hd] at h ⊢
  · simp [digitP, hs]

theorem commaP_shortCircuits : shortCircuits commaP := by
  intro s e h
  simp [commaP, h]

theorem commaP_wb : wb commaP := by
  refine ⟨commaP_shortCircuits, ?_⟩
  intro s h
  simp only [commaP, h]
  rcases hg : s.input.data.get? s.index with _ | ch <;> simp [hg]
  split <;> simp

theorem failP_wb : wb failP := by
  constructor
  · intro s e h
    simp [failP, h]
  · intro s h
    simp [failP, h]

/-! ## Claim C3: strict sequenceOf -/

/-- Any error produced by `sequenceOf` itself (on a successful input
state) carries combinator name `sequenceOf`. -/
theorem sequenceOf_error_combinator (ps : List Parser) (min : Int) (s : ParserState)
    (hs : s.error = none) (e : ParserError)
    (h : ((sequenceOf ps min).transformer s).error = some e) :
    e.combinator = "sequenceOf" := by
  simp only [sequenceOf, hs] at h
  rcases hfe : (seqRun ps s).finalError with _ | fe
  · rw [hfe] at h
    simp at h
  · simp only [hfe] at h
    by_cases hc : (seqRun ps s).psucceed < min ∨ min = -1
    · rw [if_pos hc] at h
      simp only [errorify_error, Option.some.injEq] at h
      rw [← h]
    · rw [if_neg hc] at h
      simp at h

/-- Claim C3: `sequenceOf [A, B, C]` with `min = -1` succeeds exactly when
`A`, `B` and `C` all succeed when run in order on the threaded states,
with indices increasing or equal at each step; on success the result is
the ordered list of the three child results at the last child's index, and
any single child failure makes the whole `sequenceOf` fail with an error
naming `sequenceOf`. -/
theorem c3_sequenceOf_strict (A B C : Parser) (s : ParserState)
    (hs : s.error = none) (hA : wb A) (hB : wb B) (hC : wb C) :
    (((sequenceOf [A, B, C] (-1)).transformer s).error = none ↔
      ((A.transformer s).error = none ∧
        (B.transformer (A.transformer s)).error = none ∧
        (C.transformer (B.transformer (A.transformer s))).error = none)) ∧
    (((A.transformer s).error = none ∧
        (B.transformer (A.transformer s)).error = none ∧
        (C.transformer (B.transformer (A.transformer s))).error = none) →
      ((sequenceOf [A, B, C] (-1)).transformer s =
        (C.transformer (B.transformer (A.transformer s))).update
          (C.transformer (B.transformer (A.transformer s))).index
          (some (Val.list [(A.transformer s).result,
            (B.transformer (A.transformer s)).result,
            (C.transformer (B.transformer (A.transformer s))).result])) ∧
        s.index ≤ (A.transformer s).index ∧
        (A.transformer s).index ≤ (B.transformer (A.transformer s)).index ∧
        (B.transformer (A.transformer s)).index ≤
          (C.transformer (B.transformer (A.transformer s))).index)) ∧
    (¬ ((A.transformer s).error = none ∧
        (B.transformer (A.transformer s)).error = none ∧
        (C.transformer (B.transformer (A.transformer s))).error = none) →
      ∃ e, ((sequenceOf [A, B, C] (-1)).transformer s).error = some e ∧
        e.combinator = "sequenceOf") := by
  have hiff : ((sequenceOf [A, B, C] (-1)).transformer s).error = none ↔
      ((A.transformer s).error = none ∧
        (B.transformer (A.transformer s)).error = none ∧
        (C.transformer (B.transformer (A.transformer s))).error = none) := by
    rcases heA : (A.transformer s).error with _ | eA
    · rcases heB : (B.transformer (A.transformer s)).error with _ | eB
      · rcases heC : (C.transformer (B.transformer (A.transformer s))).error with _ | eC
        · simp [sequenceOf, seqRun, seqStep, hs, heA, heB, heC]
        · simp [sequenceOf, seqRun, seqStep, hs, heA, heB, heC]
      · have hCB : C.transformer (B.transformer (A.transformer s)) =
            B.transformer (A.transformer s) := hC.1 _ eB heB
        simp [sequenceOf, seqRun, seqStep, hs, heA, heB, hCB]
    · have hBA : B.transformer (A.transformer s) = A.transformer s := hB.1 _ eA heA
      have hCA : C.transformer (A.transformer s) = A.transformer s := hC.1 _ eA heA
      simp [sequenceOf, seqRun, seqStep, hs, heA, hBA, hCA]
  refine ⟨hiff, ?_, ?_⟩
  · rintro ⟨heA, heB, heC⟩
    refine ⟨?_, hA.2 s hs, hB.2 _ heA, hC.2 _ heB⟩
    simp [sequenceOf, seqRun, seqStep, hs, heA, heB, heC]
  · intro hne
    rcases hE : ((sequenceOf [A, B, C] (-1)).transformer s).error with _ | e
    · exact absurd (hiff.mp hE) hne
    · exact ⟨e, rfl, sequenceOf_error_combinator _ _ _ hs e hE⟩

/-- Witness for C3 at a concrete input: three digit parsers on `"123"`. -/
theorem c3_sequenceOf_strict_witness :
    ((sequenceOf [digitP, digitP, digitP] (-1)).transformer (initSt "123")).error = none := by
  exact (c3_sequenceOf_strict digitP digitP digitP (initSt "123") rfl
    digitP_wb digitP_wb digitP_wb).1.mpr ⟨rfl, rfl, rfl⟩

/-! ## Claim C4: partial-success sequenceOf -/

/-- Claim C4: for `sequenceOf [A, B]` with `min = 1`, if `A` succeeds on
the input state and `B` fails on `A`'s output state (with the absent
result a failing matcher carries), the combinator still succeeds, its
result is the two-element list `[rA, undefined]`, and the returned state's
index equals `A`'s post-success index. -/
theorem c4_sequenceOf_partialSuccess (A B : Parser) (s : ParserState) (e : ParserError)
    (hs : s.error = none)
    (hA : (A.transformer s).error = none)
    (hB : (B.transformer (A.transformer s)).error = some e)
    (hBr : (B.transformer (A.transformer s)).result = none) :
    (sequenceOf [A, B] 1).transformer s =
      (B.transformer (A.transformer s)).update (A.transformer s).index
        (some (Val.list [(A.transformer s).result, none])) ∧
    ((sequenceOf [A, B] 1).transformer s).error = none ∧
    ((sequenceOf [A, B] 1).transformer s).index = (A.transformer s).index := by
  have key : (sequenceOf [A, B] 1).transformer s =
      (B.transformer (A.transformer s)).update (A.transformer s).index
        (some (Val.list [(A.transformer s).result, none])) := by
    simp only [sequenceOf, seqRun, List.foldl, seqStep, hs, hA, hB, hBr]
    norm_num
  refine ⟨key, ?_, ?_⟩ <;> rw [key] <;> simp

/-- Witness for C4 at a concrete input: two digit parsers on the
one-character input `"1"` (the second fails at end of input). -/
theorem c4_sequenceOf_partialSuccess_witness :
    (sequenceOf [digitP, digitP] 1).transformer (initSt "1") =
      ParserState.mk "1" 1 (some (Val.list [some (Val.str "1"), none])) none := by
  have h := (c4_sequenceOf_partialSuccess digitP digitP (initSt "1")
    (mkErr "unexpected end of input" "digit" 1) rfl rfl rfl rfl).1
  exact h

/-! ## Claim C2: index behaviour, counterexample part -/

/-- Counterexample to claim C2 as stated: `sequenceOf [failP] 0` applied
to a successful state at index 3 returns a successful state whose index is
0 — strictly less than the input index — because the source initialises
`lastIndex` to `0` and no child ever succeeds. -/
theorem c2_index_cex :
    ((sequenceOf [failP] 0).transformer (stAt "abc" 3)).error = none ∧
    ((sequenceOf [failP] 0).transformer (stAt "abc" 3)).index = 0 ∧
    (stAt "abc" 3).error = none ∧
    (stAt "abc" 3).index = 3 :=
  ⟨rfl, rfl, rfl, rfl⟩

/-! ## Claim C6: choice -/

/-- The `choice` loop on a list of parsers that all fail on the incoming
state produces the aggregate `choice` error at the incoming index. -/
theorem choiceGo_all_fail (s : ParserState) :
    ∀ ps : List Parser, (∀ q ∈ ps, ((q.transformer s).error).isSome) →
      choiceGo ps s =
        s.errorify ⟨"Unable to match with any parser", "choice", s.index, none, none⟩ := by
  intro ps
  induction ps with
  | nil => intro _; rfl
  | cons q rest ih =>
    intro h
    have hq := h q (by simp)
    rcases he : (q.transformer s).error with _ | e
    · rw [he] at hq
      simp at hq
    · simp only [choiceGo, he]
      exact ih (fun r hr => h r (by simp [hr]))

/-- The `choice` loop returns the first successful attempt's output state
verbatim, every attempt being run on the same incoming state. -/
theorem choiceGo_first_success (s : ParserState) (p : Parser) (ps2 : List Parser)
    (hp : (p.transformer s).error = none) :
    ∀ ps1 : List Parser, (∀ q ∈ ps1, ((q.transformer s).error).isSome) →
      choiceGo (ps1 ++ p :: ps2) s = p.transformer s := by
  intro ps1
  induction ps1 with
  | nil =>
    intro _
    simp only [List.nil_append, choiceGo, hp]
  | cons q rest ih =>
    intro h
    have hq := h q (by simp)
    rcases he : (q.transformer s).error with _ | e
    · rw [he] at hq
      simp at hq
    · simp only [List.cons_append, choiceGo, he]
      exact ih (fun r hr => h r (by simp [hr]))

/-- Claim C6: `choice` runs each parser on the original incoming state
(attempts are independent), returns the first successful child's output
state verbatim, and, when every child fails, returns an erroring state
with a `choice` error whose index is the original input index and which
carries only the aggregate message. -/
theorem c6_choice_independent (ps1 ps2 : List Parser) (p : Parser) (s : ParserState)
    (hs : s.error = none)
    (h1 : ∀ q ∈ ps1, ((q.transformer s).error).isSome)
    (hp : (p.transformer s).error = none) :
    (choice (ps1 ++ p :: ps2)).transformer s = p.transformer s ∧
    (∀ ps : List Parser, (∀ q ∈ ps, ((q.transformer s).error).isSome) →
      (choice ps).transformer s =
        s.errorify ⟨"Unable to match with any parser", "choice", s.index, none, none⟩) := by
  constructor
  · simp only [choice, hs]
    exact choiceGo_first_success s p ps2 hp ps1 h1
  · intro ps h
    simp only [choice, hs]
    exact choiceGo_all_fail s ps h

/-- Witness for C6 at a concrete input: `choice [failP, digitP]` on `"1"`
returns `digitP`'s output, and `choice [failP]` fails with the aggregate
error. -/
theorem c6_choice_independent_witness :
    (choice [failP, digitP]).transformer (initSt "1") =
      digitP.transformer (initSt "1") ∧
    (choice [failP]).transformer (initSt "1") =
      (initSt "1").errorify ⟨"Unable to match with any parser", "choice", 0, none, none⟩ := by
  have h := c6_choice_independent [failP] [] digitP (initSt "1") rfl
    (by intro q hq; simp at hq; subst hq; exact rfl) rfl
  exact ⟨h.1, h.2 [failP] (by intro q hq; simp at hq; subst hq; exact rfl)⟩

/-! ## Claim C7: join vs joinWJR -/

/-- With joiner results excluded, the interleaved list built by `__join`
has exactly one entry per main parser. -/
theorem joinedTail_false_length (j : Parser) :
    ∀ rest : List Parser, (joinedTail j false rest).length = rest.length := by
  intro rest
  induction rest with
  | nil => rfl
  | cons p ps ih => simp [joinedTail, ih]

/-- Claim C7: `join` produces a result sequence containing only the main
parsers' results (one entry per main parser; joiner results never appear),
while `joinWJR` interleaves each successful joiner's result at its
position: `join [num, num] comma` on `"1,2"` yields `[1, 2]` and
`joinWJR [num, num] comma` on the same input yields `[1, ',', 2]`. -/
theorem c7_join_vs_joinWJR :
    (join [numP, numP] commaP (-1)).transformer (initSt "1,2") =
      ParserState.mk "1,2" 3
        (some (Val.list [some (Val.num 1), some (Val.num 2)])) none ∧
    (joinWJR [numP, numP] commaP (-1)).transformer (initSt "1,2") =
      ParserState.mk "1,2" 3
        (some (Val.list [some (Val.num 1), some (Val.str ","), some (Val.num 2)])) none ∧
    (∀ (ps : List Parser) (j : Parser),
      (joinedParsers ps j false).length = ps.length) := by
  refine ⟨rfl, rfl, ?_⟩
  intro ps j
  cases ps with
  | nil => rfl
  | cons p rest => simp [joinedParsers, joinedTail_false_length]

/-! ## Claim C9: the contextual programming contract -/

/-- Claim C9: when the step function given to `contextual` yields a value
that is not a `Parser`, the combinator aborts with a thrown exception
(modelled as `Except.error`), never by returning a parse state with its
error field set; whereas a parse failure of a yielded `Parser` is returned
as an erroring state re-stamped with combinator name `contextual`. -/
theorem c9_contextual_contract :
    (∀ (k : Option Val → GenM) (s : ParserState), s.error = none →
      contextualRun (GenM.yieldStep Yielded.notParser k) s =
        Except.error "contextual: yielded values must always be parsers" ∧
      ∀ st : ParserState,
        contextualRun (GenM.yieldStep Yielded.notParser k) s ≠ Except.ok st) ∧
    (∀ (P : Parser) (k : Option Val → GenM) (s : ParserState) (e : ParserError),
      s.error = none → (P.transformer s).error = some e →
      contextualRun (GenM.yieldStep (Yielded.isParser P) k) s =
        Except.ok ((P.transformer s).errorify { e with combinator := "contextual" }) ∧
      ((P.transformer s).errorify { e with combinator := "contextual" }).error =
        some { e with combinator := "contextual" }) := by
  constructor
  · intro k s hs
    constructor
    · simp [contextualRun, contextualGo, hs]
    · intro st h
      simp [contextualRun, contextualGo, hs] at h
  · intro P k s e hs hP
    constructor
    · simp [contextualRun, contextualGo, hs, hP]
    · simp

/-- Witness for C9 at concrete inputs: a generator whose first yield is
not a parser, and a generator whose first yielded parser (`failP`) fails
on `"x"`. -/
theorem c9_contextual_contract_witness :
    contextualRun (GenM.yieldStep Yielded.notParser (fun _ => GenM.done none))
        (initSt "x") =
      Except.error "contextual: yielded values must always be parsers" ∧
    contextualRun (GenM.yieldStep (Yielded.isParser failP) (fun _ => GenM.done none))
        (initSt "x") =
      Except.ok ((failP.transformer (initSt "x")).errorify
        { mkErr "always fails" "fail" 0 with combinator := "contextual" }) := by
  have h1 := (c9_contextual_contract.1 (fun _ => GenM.done none) (initSt "x") rfl).1
  have h2 := (c9_contextual_contract.2 failP (fun _ => GenM.done none) (initSt "x")
    (mkErr "always fails" "fail" 0) rfl rfl).1
  exact ⟨h1, h2⟩

/-! ## Claim C1: short-circuit on erroring states -/

/-- A fixed erroring state used in counterexamples and witnesses. -/
def errSt : ParserState := ⟨"ab", 1, none, some (mkErr "boom" "test" 1)⟩

/-- Counterexample to claim C1 as stated: `stateContextual` performs no
error check, so on an erroring input state it drives the caller's
generator; a generator that immediately returns a different state makes
`stateContextual` return that state instead of the erroring input. -/
theorem c1_stateContextual_cex :
    stateContextualRun (SGen.done (initSt "zz")) errSt = Except.ok (initSt "zz") ∧
    stateContextualRun (SGen.done (initSt "zz")) errSt ≠ Except.ok errSt ∧
    errSt.error.isSome = true := by
  refine ⟨rfl, ?_, rfl⟩
  intro h
  simp [stateContextualRun, stateContextualGo, initSt, errSt, mkErr] at h

/-- Claim C1, as amended: `sequenceOf`, `choice`, `many`, `between`,
`manyJoin`, `manyJoinWJR` and `contextual` return an erroring input state
unchanged (no consumption, no mutation of the error); `join` and
`joinWJR`, whose error-map runs on any failing result state, return the
erroring input with its error's combinator field restamped to `join` (and
the result cleared); `stateContextual` is characterised separately by its
counterexample. -/
theorem c1_short_circuit (s : ParserState) (e : ParserError) (hs : s.error = some e) :
    (∀ ps min, (sequenceOf ps min).transformer s = s) ∧
    (∀ ps, (choice ps).transformer s = s) ∧
    (∀ p min fuel, manyRun p min fuel s = some s) ∧
    (∀ l r c, (between l r c).transformer s = s) ∧
    (∀ p j min b fuel, manyJoinRun p j min b fuel s = some s) ∧
    (∀ g, contextualRun g s = Except.ok s) ∧
    (∀ ps j min, (join ps j min).transformer s =
      s.errorify { e with combinator := "join" }) ∧
    (∀ ps j min, (joinWJR ps j min).transformer s =
      s.errorify { e with combinator := "join" }) := by
  refine ⟨?_, ?_, ?_, ?_, ?_, ?_, ?_, ?_⟩
  · intro ps min
    simp [sequenceOf, hs]
  · intro ps
    simp [choice, hs]
  · intro p min fuel
    simp [manyRun, hs]
  · intro l r c
    simp [between, Parser.map, sequenceOf, hs]
  · intro p j min b fuel
    simp [manyJoinRun, hs]
  · intro g
    simp [contextualRun, hs]
  · intro ps j min
    simp [join, __join, Parser.mapError, sequenceOf, hs]
  · intro ps j min
    simp [joinWJR, __join, Parser.mapError, sequenceOf, hs]

/-- Witness for C1 (amended) at a concrete erroring state. -/
theorem c1_short_circuit_witness :
    (sequenceOf [digitP] 0).transformer errSt = errSt ∧
    (choice [digitP]).transformer errSt = errSt ∧
    manyRun digitP 0 5 errSt = some errSt ∧
    contextualRun (GenM.done none) errSt = Except.ok errSt := by
  have h := c1_short_circuit errSt (mkErr "boom" "test" 1) rfl
  exact ⟨h.1 [digitP] 0, h.2.1 [digitP], h.2.2.1 digitP 0 5, h.2.2.2.2.2.1 (GenM.done none)⟩

/-! ## Claim C5: many -/

/-- The `many` loop instrumented with the index reached by the last
successful match (the spec's "last good index"); the loop itself is
unchanged — the extra component is updated on success only. -/
def manyGoL (p : Parser) : Nat → ParserState → List (Option Val) → Nat →
    Option (List (Option Val) × ParserState × Nat) :=
  fun fuel s results li =>
    match fuel with
    | 0 => none
    | Nat.succ fuel =>
      let ns := p.transformer s
      match ns.error with
      | some _ => some (results, ns, li)
      | none => manyGoL p fuel ns (results ++ [ns.result]) ns.index

/-- Erasing the instrumented component of `manyGoL` recovers `manyGo`. -/
theorem manyGoL_erase (p : Parser) :
    ∀ (fuel : Nat) (s : ParserState) (results : List (Option Val)) (li : Nat),
      (manyGoL p fuel s results li).map (fun t => (t.1, t.2.1)) =
        manyGo p fuel s results := by
  intro fuel
  induction fuel with
  | zero => intro s results li; rfl
  | succ f ih =>
    intro s results li
    simp only [manyGoL, manyGo]
    rcases he : (p.transformer s).error with _ | e
    · simp only [he]
      exact ih _ _ _
    · simp [he]

/-- For a parser whose failing attempts preserve the index (the
leaf-matcher contract), the final state of the `many` loop sits exactly at
the index reached by the last successful match. -/
theorem manyGoL_lastIndex (p : Parser)
    (hpi : ∀ st, ((p.transformer st).error).isSome → (p.transformer st).index = st.index) :
    ∀ (fuel : Nat) (s : ParserState) (results : List (Option Val))
      (res : List (Option Val)) (ns : ParserState) (li : Nat),
      manyGoL p fuel s results s.index = some (res, ns, li) → ns.index = li := by
  intro fuel
  induction fuel with
  | zero =>
    intro s results res ns li h
    simp [manyGoL] at h
  | succ f ih =>
    intro s results res ns li h
    simp only [manyGoL] at h
    rcases he : (p.transformer s).error with _ | e
    · simp only [he] at h
      exact ih _ _ _ _ _ h
    · simp only [he, Option.some.injEq, Prod.mk.injEq] at h
      obtain ⟨-, h2, h3⟩ := h
      rw [← h2, ← h3]
      exact hpi s (by simp [he])

/-- Claim C5: `many` applied to a successful state, when the loop
terminates with at least `min` successful attempts, returns a successful
state whose result is exactly the accumulated list of the successful
attempts' results in order (the failing attempt appends nothing — last
conjuncts), whose error field is absent, and whose index is the index
reached by the last successful match. -/
theorem c5_many_success (p : Parser) (min : Int) (fuel : Nat) (s : ParserState)
    (res : List (Option Val)) (ns : ParserState) (li : Nat)
    (hs : s.error = none)
    (hpi : ∀ st, ((p.transformer st).error).isSome → (p.transformer st).index = st.index)
    (hrun : manyGoL p fuel s [] s.index = some (res, ns, li))
    (hmin : min ≤ (res.length : Int)) :
    manyRun p min fuel s = some (ns.resultify (some (Val.list res))) ∧
    (ns.resultify (some (Val.list res))).error = none ∧
    (ns.resultify (some (Val.list res))).index = li ∧
    (∀ (st : ParserState) (acc : List (Option Val)) (f : Nat) (e : ParserError),
      (p.transformer st).error = some e →
      manyGo p (f + 1) st acc = some (acc, p.transformer st)) ∧
    (∀ (st : ParserState) (acc : List (Option Val)) (f : Nat),
      (p.transformer st).error = none →
      manyGo p (f + 1) st acc =
        manyGo p f (p.transformer st) (acc ++ [(p.transformer st).result])) := by
  have hgo : manyGo p fuel s [] = some (res, ns) := by
    have h := manyGoL_erase p fuel s [] s.index
    rw [hrun] at h
    simpa using h.symm
  refine ⟨?_, by simp, ?_, ?_, ?_⟩
  · simp only [manyRun, hs, hgo, Option.map_some']
    rw [if_neg (by omega)]
  · simp only [resultify_index]
    exact manyGoL_lastIndex p hpi fuel s [] res ns li hrun
  · intro st acc f e he
    simp [manyGo, he]
  · intro st acc f he
    simp [manyGo, he]

/-- Witness for C5 at the spec's concrete input: `many digitP` on `"12a"`
returns `['1', '2']` at index 2 with no error. -/
theorem c5_many_success_witness :
    manyRun digitP 1 10 (initSt "12a") =
      some (ParserState.mk "12a" 2
        (some (Val.list [some (Val.str "1"), some (Val.str "2")])) none) := by
  exact (c5_many_success digitP 1 10 (initSt "12a")
    [some (Val.str "1"), some (Val.str "2")]
    (ParserState.mk "12a" 2 none (some (mkErr "expected digit" "digit" 2))) 2
    rfl digitP_fail_index rfl (by norm_num)).1

/-! ## Claim C8: manyJoin alternation -/

/-- Claim C8: `manyJoin` / `manyJoinWJR` alternate the main parser and the
joiner.  The first loop iteration runs the bare main parser (terminating
on its failure); every subsequent iteration first runs the joiner and then
the main parser; the loop stops at the first failure of either (for a
short-circuiting main parser, a joiner failure ends the loop with the
joiner's error state); and the combinator succeeds exactly when the count
`np` of successful main-parser matches (joiners excluded) reaches
`min`. -/
theorem c8_manyJoin_alternation (p j : Parser) :
    (∀ (b : Bool) (fuel : Nat) (s : ParserState) (res : List (Option Val))
        (np : Nat) (e : ParserError), (p.transformer s).error = some e →
      manyJoinGo p j b (fuel + 1) true s res np = some (res, p.transformer s, np)) ∧
    (∀ (b : Bool) (fuel : Nat) (s : ParserState) (res : List (Option Val))
        (np : Nat), (p.transformer s).error = none →
      manyJoinGo p j b (fuel + 1) true s res np =
        manyJoinGo p j b fuel false (p.transformer s)
          (res ++ [(p.transformer s).result]) (np + 1)) ∧
    (∀ (b : Bool) (fuel : Nat) (s : ParserState) (res : List (Option Val))
        (np : Nat) (e : ParserError), shortCircuits p →
      (j.transformer s).error = some e →
      manyJoinGo p j b (fuel + 1) false s res np = some (res, j.transformer s, np)) ∧
    (∀ (b : Bool) (fuel : Nat) (s : ParserState) (res : List (Option Val))
        (np : Nat) (e : ParserError), (j.transformer s).error = none →
      (p.transformer (j.transformer s)).error = some e →
      manyJoinGo p j b (fuel + 1) false s res np =
        some ((if b then res ++ [(j.transformer s).result] else res),
          p.transformer (j.transformer s), np)) ∧
    (∀ (b : Bool) (fuel : Nat) (s : ParserState) (res : List (Option Val))
        (np : Nat), (j.transformer s).error = none →
      (p.transformer (j.transformer s)).error = none →
      manyJoinGo p j b (fuel + 1) false s res np =
        manyJoinGo p j b fuel false (p.transformer (j.transformer s))
          ((if b then res ++ [(j.transformer s).result] else res) ++
            [(p.transformer (j.transformer s)).result]) (np + 1)) ∧
    (∀ (min : Int) (b : Bool) (fuel : Nat) (s : ParserState)
        (res : List (Option Val)) (ns : ParserState) (np : Nat),
      s.error = none →
      manyJoinGo p j b fuel true s [] 0 = some (res, ns, np) →
      ∃ out, manyJoinRun p j min b fuel s = some out ∧
        (out.error = none ↔ min ≤ (np : Int))) := by
  refine ⟨?_, ?_, ?_, ?_, ?_, ?_⟩
  · intro b fuel s res np e he
    simp [manyJoinGo, manyJoinPre, he]
  · intro b fuel s res np he
    simp [manyJoinGo, manyJoinPre, he]
  · intro b fuel s res np e hsc hj
    have hps : p.transformer (j.transformer s) = j.transformer s := hsc _ e hj
    simp [manyJoinGo, manyJoinPre, hj, hps]
  · intro b fuel s res np e hj hp2
    simp [manyJoinGo, manyJoinPre, hj, hp2]
  · intro b fuel s res np hj hp2
    simp [manyJoinGo, manyJoinPre, hj, hp2]
  · intro min b fuel s res ns np hs hrun
    simp only [manyJoinRun, hs, hrun, Option.map_some']
    by_cases hc : (np : Int) < min
    · rw [if_pos hc]
      refine ⟨_, rfl, ?_⟩
      simp only [errorify_error]
      constructor
      · intro h
        exact absurd h (by simp)
      · intro h
        omega
    · rw [if_neg hc]
      refine ⟨_, rfl, ?_⟩
      simp only [resultify_error]
      constructor
      · intro _
        omega
      · intro _
        trivial

/-- Witness for C8 at a concrete input: `manyJoin digitP commaP` with
`min = 1` on `"12a"` stops when the joiner fails after one main match and
succeeds since one match reaches the minimum. -/
theorem c8_manyJoin_alternation_witness :
    ∃ out, manyJoinRun digitP commaP 1 false 10 (initSt "12a") = some out ∧
      (out.error = none ↔ (1 : Int) ≤ ((1 : Nat) : Int)) := by
  exact (c8_manyJoin_alternation digitP commaP).2.2.2.2.2 1 false 10 (initSt "12a")
    [some (Val.str "1")]
    (ParserState.mk "12a" 1 none (some (mkErr "expected comma" "char" 1))) 1 rfl rfl

/-! ## Claim C10: manyJoinWJR failure counters -/

/-- The `__manyJoin` loop with joiner results included, instrumented with
a count `jc` of successful joiner matches; the loop itself is unchanged —
the extra component is incremented exactly when a joiner result is pushed
into the accumulated list. -/
def manyJoinGoC (parser joiner : Parser) :
    Nat → Bool → ParserState → List (Option Val) → Nat → Nat →
    Option (List (Option Val) × ParserState × Nat × Nat) :=
  fun fuel starts s results np jc =>
    match fuel with
    | 0 => none
    | Nat.succ fuel =>
      let pre :=
        if starts then (s, results, false, jc)
        else
          let sj := joiner.transformer s
          match sj.error with
          | some _ => (sj, results, true, jc)
          | none => (sj, results ++ [sj.result], false, jc + 1)
      let s2 := parser.transformer pre.1
      match s2.error with
      | some _ => some (pre.2.1, s2, np, pre.2.2.2)
      | none =>
        if pre.2.2.1 then some (pre.2.1 ++ [s2.result], s2, np + 1, pre.2.2.2)
        else manyJoinGoC parser joiner fuel false s2
          (pre.2.1 ++ [s2.result]) (np + 1) (pre.2.2.2)

/-- Erasing the joiner counter of `manyJoinGoC` recovers `manyJoinGo` with
`joinResults = true`. -/
theorem manyJoinGoC_erase (p j : Parser) :
    ∀ (fuel : Nat) (starts : Bool) (s : ParserState)
      (results : List (Option Val)) (np jc : Nat),
      (manyJoinGoC p j fuel starts s results np jc).map
          (fun t => (t.1, t.2.1, t.2.2.1)) =
        manyJoinGo p j true fuel starts s results np := by
  intro fuel
  induction fuel with
  | zero => intro starts s results np jc; rfl
  | succ f ih =>
    intro starts s results np jc
    cases starts with
    | true =>
      simp only [manyJoinGoC, manyJoinGo, manyJoinPre, if_pos]
      rcases he : (p.transformer s).error with _ | e
      · simp only [he, if_neg Bool.false_ne_true]
        exact ih _ _ _ _ _
      · simp [he]
    | false =>
      simp only [manyJoinGoC, manyJoinGo, manyJoinPre]
      rcases hj : (j.transformer s).error with _ | e
      · simp only [hj]
        rcases he : (p.transformer (j.transformer s)).error with _ | e2
        · simp only [he, if_neg Bool.false_ne_true]
          exact ih _ _ _ _ _
        · simp [he]
      · simp only [hj]
        rcases he : (p.transformer (j.transformer s)).error with _ | e2
        · simp [he]
        · simp [he]

/-- Length invariant of the instrumented loop: the accumulated result list
grows by exactly one entry per successful main-parser match and one entry
per successful joiner match. -/
theorem manyJoinGoC_length (p j : Parser) :
    ∀ (fuel : Nat) (starts : Bool) (s : ParserState)
      (results res : List (Option Val)) (ns : ParserState) (np jc np2 jc2 : Nat),
      manyJoinGoC p j fuel starts s results np jc = some (res, ns, np2, jc2) →
      res.length + np + jc = results.length + np2 + jc2 := by
  intro fuel
  induction fuel with
  | zero =>
    intro starts s results res ns np jc np2 jc2 h
    simp [manyJoinGoC] at h
  | succ f ih =>
    intro starts s results res ns np jc np2 jc2 h
    cases starts with
    | true =>
      simp only [manyJoinGoC, if_pos] at h
      rcases he : (p.transformer s).error with _ | e
      · simp only [he, if_neg Bool.false_ne_true] at h
        have := ih _ _ _ _ _ _ _ _ _ h
        simp at this
        omega
      · simp only [he, Option.some.injEq, Prod.mk.injEq] at h
        obtain ⟨h1, -, h3, h4⟩ := h
        subst h1 h3 h4
        omega
    | false =>
      simp only [manyJoinGoC] at h
      rcases hj : (j.transformer s).error with _ | e
      · simp only [hj] at h
        rcases he : (p.transformer (j.transformer s)).error with _ | e2
        · simp only [he, if_neg Bool.false_ne_true] at h
          have := ih _ _ _ _ _ _ _ _ _ h
          simp at this
          omega
        · simp only [he, if_neg Bool.false_ne_true, Option.some.injEq,
            Prod.mk.injEq] at h
          obtain ⟨h1, -, h3, h4⟩ := h
          subst h3 h4
          have : res.length = results.length + 1 := by rw [← h1]; simp
          omega
      · simp only [hj, if_neg Bool.false_ne_true] at h
        rcases he : (p.transformer (j.transformer s)).error with _ | e2
        · simp only [he, eq_self_iff_true, if_true, Option.some.injEq,
            Prod.mk.injEq] at h
          obtain ⟨h1, -, h3, h4⟩ := h
          subst h3 h4
          have : res.length = results.length + 1 := by rw [← h1]; simp
          omega
        · simp only [he, Option.some.injEq, Prod.mk.injEq] at h
          obtain ⟨h1, -, h3, h4⟩ := h
          subst h3 h4
          have : res.length = results.length := by rw [← h1]
          omega

/-- Claim C10: when `manyJoinWJR` fails because fewer than `min`
main-parser matches succeeded, the failure record's `nmatches` counter
(and the count quoted in its message) is the length of the accumulated
result list — which includes the successful joiner results, so with at
least one successful joiner it strictly exceeds the main-match count `np`
— and the error is stamped with combinator name `manyJoin`; the
`joinResults = false` variant is stamped `manyJoin` as well (last
conjunct). -/
theorem c10_manyJoin_nmatches (p j : Parser) (min : Int) (fuel : Nat)
    (s : ParserState) (res : List (Option Val)) (ns : ParserState) (np jc : Nat)
    (hs : s.error = none)
    (hrun : manyJoinGoC p j fuel true s [] 0 0 = some (res, ns, np, jc))
    (hjc : 1 ≤ jc)
    (hmin : (np : Int) < min) :
    (∃ e, manyJoinRun p j min true fuel s = some (s.errorify e) ∧
      e.combinator = "manyJoin" ∧ e.index = s.index ∧
      e.nmatches = some res.length) ∧
    np < res.length ∧
    (∀ (fuel2 : Nat) (s2 : ParserState) (res2 : List (Option Val))
        (ns2 : ParserState) (np2 : Nat), s2.error = none →
      manyJoinGo p j false fuel2 true s2 [] 0 = some (res2, ns2, np2) →
      (np2 : Int) < min →
      ∃ e, manyJoinRun p j min false fuel2 s2 = some (s2.errorify e) ∧
        e.combinator = "manyJoin" ∧ e.nmatches = some res2.length) := by
  have hgo : manyJoinGo p j true fuel true s [] 0 = some (res, ns, np) := by
    have h := manyJoinGoC_erase p j fuel true s [] 0 0
    rw [hrun] at h
    simpa using h.symm
  have hlen : res.length = np + jc := by
    have h := manyJoinGoC_length p j fuel true s [] res ns 0 0 np jc hrun
    simpa using h
  refine ⟨?_, by omega, ?_⟩
  · refine ⟨⟨minMsg min res.length, "manyJoin", s.index, none, some res.length⟩,
      ?_, rfl, rfl, rfl⟩
    simp only [manyJoinRun, hs, hgo, Option.map_some']
    rw [if_pos hmin]
  · intro fuel2 s2 res2 ns2 np2 hs2 hrun2 hmin2
    refine ⟨⟨minMsg min res2.length, "manyJoin", s2.index, none, some res2.length⟩,
      ?_, rfl, rfl⟩
    simp only [manyJoinRun, hs2, hrun2, Option.map_some']
    rw [if_pos hmin2]

/-- Witness for C10 at a concrete input: `manyJoinWJR digitP commaP` with
`min = 5` on `"1,2"` fails reporting `nmatches = 3` (two digit matches
plus one joiner match), strictly more than the two main-parser matches. -/
theorem c10_manyJoin_nmatches_witness :
    (∃ e, manyJoinRun digitP commaP 5 true 10 (initSt "1,2") =
        some ((initSt "1,2").errorify e) ∧
      e.combinator = "manyJoin" ∧ e.nmatches = some 3) ∧
    2 < 3 := by
  have h := c10_manyJoin_nmatches digitP commaP 5 10 (initSt "1,2")
    [some (Val.str "1"), some (Val.str ","), some (Val.str "2")]
    (ParserState.mk "1,2" 3 none (some (mkErr "unexpected end of input" "char" 3)))
    2 1 rfl rfl (by norm_num) (by norm_num)
  obtain ⟨⟨e, h1, h2, -, h4⟩, h5, -⟩ := h
  exact ⟨⟨e, h1, h2, by simpa using h4⟩, h5⟩

/-! ## Claim C2: index behaviour, amended part -/

/-- Invariant of the `sequenceOf` loop relative to the incoming state: a
non-erroring threaded state never sits before the incoming index; once a
child has succeeded, `lastIndex` is at or after the incoming index; with
no successful child yet, `lastIndex` still holds its initial value `0`;
and the success counter never goes negative. -/
def SeqInv (s : ParserState) (acc : SeqAcc) : Prop :=
  (acc.nextState.error = none → s.index ≤ acc.nextState.index) ∧
  (1 ≤ acc.psucceed → s.index ≤ acc.lastIndex) ∧
  (acc.psucceed = 0 → acc.lastIndex = 0) ∧
  0 ≤ acc.psucceed

theorem seqStep_inv (p : Parser) (hp : wb p) (s : ParserState) (acc : SeqAcc)
    (h : SeqInv s acc) : SeqInv s (seqStep p acc) := by
  obtain ⟨h1, h2, h3, h4⟩ := h
  rcases hae : acc.nextState.error with _ | ae
  · rcases he : (p.transformer acc.nextState).error with _ | e
    · have hsle : s.index ≤ (p.transformer acc.nextState).index :=
        le_trans (h1 hae) (hp.2 _ hae)
      refine ⟨?_, ?_, ?_, ?_⟩ <;> simp only [seqStep, he]
      · intro _
        exact hsle
      · intro _
        exact hsle
      · intro hz
        exact absurd hz (by omega)
      · omega
    · refine ⟨?_, ?_, ?_, ?_⟩ <;> simp only [seqStep, he]
      · intro hcontra
        exact absurd hcontra (by simp)
      · intro hge
        exact h2 (by omega)
      · intro hz
        exact h3 (by omega)
      · omega
  · have hps : p.transformer acc.nextState = acc.nextState := hp.1 _ ae hae
    refine ⟨?_, ?_, ?_, ?_⟩ <;> simp only [seqStep, hps, hae]
    · intro hcontra
      exact absurd hcontra (by simp)
    · intro hge
      exact h2 (by omega)
    · intro hz
      exact h3 (by omega)
    · omega

theorem seqFold_inv (s : ParserState) :
    ∀ (ps : List Parser) (acc : SeqAcc), (∀ p ∈ ps, wb p) → SeqInv s acc →
      SeqInv s (ps.foldl (fun a q => seqStep q a) acc) := by
  intro ps
  induction ps with
  | nil => intro acc _ h; exact h
  | cons q rest ih =>
    intro acc hwb h
    simp only [List.foldl_cons]
    exact ih _ (fun r hr => hwb r (by simp [hr]))
      (seqStep_inv q (hwb q (by simp)) s acc h)

theorem seqRun_inv (s : ParserState)
    (ps : List Parser) (hwb : ∀ p ∈ ps, wb p) : SeqInv s (seqRun ps s) := by
  refine seqFold_inv s ps _ hwb ⟨?_, ?_, ?_, ?_⟩
  · intro _
    exact le_refl _
  · intro hge
    exact absurd hge (by norm_num)
  · intro _
    rfl
  · exact le_refl _

/-- A successful `sequenceOf` output always sits at the loop's
`lastIndex`. -/
theorem sequenceOf_ok_index (ps : List Parser) (min : Int) (s : ParserState)
    (hs : s.error = none)
    (hok : ((sequenceOf ps min).transformer s).error = none) :
    ((sequenceOf ps min).transformer s).index = (seqRun ps s).lastIndex := by
  rcases hfe : (seqRun ps s).finalError with _ | fe
  · simp [sequenceOf, hs, hfe]
  · by_cases hc : (seqRun ps s).psucceed < min ∨ min = -1
    · exfalso
      simp [sequenceOf, hs, hfe, hc] at hok
    · simp [sequenceOf, hs, hfe, hc]

/-- The `choice` loop only moves forward when its children are
well-behaved. -/
theorem choiceGo_mono (s : ParserState) (hs : s.error = none) :
    ∀ ps : List Parser, (∀ p ∈ ps, wb p) →
      (choiceGo ps s).error = none → s.index ≤ (choiceGo ps s).index := by
  intro ps
  induction ps with
  | nil =>
    intro _ hok
    simp [choiceGo] at hok
  | cons q rest ih =>
    intro hwb hok
    rcases he : (q.transformer s).error with _ | e
    · simp only [choiceGo, he] at hok ⊢
      exact (hwb q (by simp)).2 s hs
    · simp only [choiceGo, he] at hok ⊢
      exact ih (fun r hr => hwb r (by simp [hr])) hok

/-- The `many` loop only moves forward when its parser is
well-behaved. -/
theorem manyGo_mono (p : Parser) (hp : wb p) :
    ∀ (fuel : Nat) (s : ParserState) (acc res : List (Option Val)) (ns : ParserState),
      s.error = none → manyGo p fuel s acc = some (res, ns) → s.index ≤ ns.index := by
  intro fuel
  induction fuel with
  | zero =>
    intro s acc res ns _ h
    simp [manyGo] at h
  | succ f ih =>
    intro s acc res ns hs h
    simp only [manyGo] at h
    rcases he : (p.transformer s).error with _ | e
    · simp only [he] at h
      exact le_trans (hp.2 s hs) (ih _ _ _ _ he h)
    · simp only [he, Option.some.injEq, Prod.mk.injEq] at h
      rw [← h.2]
      exact hp.2 s hs

/-- The `__manyJoin` loop only moves forward when both parsers are
well-behaved. -/
theorem manyJoinGo_mono (p j : Parser) (hp : wb p) (hj : wb j) (b : Bool) :
    ∀ (fuel : Nat) (starts : Bool) (s : ParserState) (acc res : List (Option Val))
      (ns : ParserState) (np np2 : Nat),
      s.error = none → manyJoinGo p j b fuel starts s acc np = some (res, ns, np2) →
      s.index ≤ ns.index := by
  intro fuel
  induction fuel with
  | zero =>
    intro starts s acc res ns np np2 _ h
    simp [manyJoinGo] at h
  | succ f ih =>
    intro starts s acc res ns np np2 hs h
    cases starts with
    | true =>
      simp only [manyJoinGo, manyJoinPre, if_pos] at h
      rcases he : (p.transformer s).error with _ | e
      · simp only [he, if_neg Bool.false_ne_true] at h
        exact le_trans (hp.2 s hs) (ih _ _ _ _ _ _ _ he h)
      · simp only [he, Option.some.injEq, Prod.mk.injEq] at h
        rw [← h.2.1]
        exact hp.2 s hs
    | false =>
      simp only [manyJoinGo, manyJoinPre, if_neg Bool.false_ne_true] at h
      rcases hje : (j.transformer s).error with _ | e
      · have hsj : s.index ≤ (j.transformer s).index := hj.2 s hs
        simp only [hje] at h
        rcases he : (p.transformer (j.transformer s)).error with _ | e2
        · simp only [he, if_neg Bool.false_ne_true] at h
          exact le_trans hsj (le_trans (hp.2 _ hje) (ih _ _ _ _ _ _ _ he h))
        · simp only [he, Option.some.injEq, Prod.mk.injEq] at h
          rw [← h.2.1]
          exact le_trans hsj (hp.2 _ hje)
      · have hps : p.transformer (j.transformer s) = j.transformer s :=
          hp.1 _ e hje
        simp only [hje, hps] at h
        simp only [Option.some.injEq, Prod.mk.injEq] at h
        rw [← h.2.1]
        exact hj.2 s hs

/-- Every parser yielded along a `contextual` generator tree is
well-behaved. -/
def GenM.allWB : GenM → Prop
  | GenM.done _ => True
  | GenM.yieldStep Yielded.notParser _ => True
  | GenM.yieldStep (Yielded.isParser P) k => wb P ∧ ∀ v, GenM.allWB (k v)

/-- The `contextual` driver only moves forward when every yielded parser
is well-behaved. -/
theorem contextualGo_mono :
    ∀ g : GenM, GenM.allWB g → ∀ (s out : ParserState), s.error = none →
      contextualGo g s = Except.ok out → out.error = none →
      s.index ≤ out.index := by
  intro g
  induction g with
  | done v =>
    intro _ s out hs hrun _
    simp only [contextualGo, succeed, hs, Except.ok.injEq] at hrun
    rw [← hrun]
    simp
  | yieldStep y k ih =>
    intro hwb s out hs hrun hok
    cases y with
    | notParser => simp [contextualGo] at hrun
    | isParser P =>
      simp only [GenM.allWB] at hwb
      obtain ⟨hP, hk⟩ := hwb
      simp only [contextualGo] at hrun
      rcases he : (P.transformer s).error with _ | e
      · simp only [he] at hrun
        have hle : s.index ≤ (P.transformer s).index := hP.2 s hs
        rcases hinner : contextualGo (k (P.transformer s).result) (P.transformer s)
          with msg | iout
        · rw [hinner] at hrun
          simp at hrun
        · rw [hinner] at hrun
          rcases hie : iout.error with _ | e2
          · simp only [hie, Except.ok.injEq] at hrun
            rw [← hrun]
            exact le_trans hle (ih _ (hk _) _ _ he hinner hie)
          · simp only [hie, Except.ok.injEq] at hrun
            rw [← hrun] at hok
            simp at hok
      · simp only [he, Except.ok.injEq] at hrun
        rw [← hrun] at hok
        simp at hok

/-- Claim C2, as amended: with well-behaved children (short-circuiting on
erroring states and index-monotone on successful states), every
combinator's successful output sits at or after the input index, except
that `sequenceOf` (and hence its `join` derivatives) advances to the
loop's `lastIndex`, which is the last index reached by a successful child
when at least one child succeeded but is the initial value `0` — possibly
before the input index — when zero children succeeded;
`stateContextual`'s output is whatever state the caller's generator
returns and obeys no such bound. -/
theorem c2_index_monotone :
    (∀ (ps : List Parser) (min : Int) (s : ParserState), s.error = none →
      (∀ p ∈ ps, wb p) →
      (((sequenceOf ps min).transformer s).error = none →
        ((sequenceOf ps min).transformer s).index = (seqRun ps s).lastIndex) ∧
      (1 ≤ (seqRun ps s).psucceed → s.index ≤ (seqRun ps s).lastIndex) ∧
      ((seqRun ps s).psucceed = 0 → (seqRun ps s).lastIndex = 0)) ∧
    (∀ (ps : List Parser) (s : ParserState), s.error = none →
      (∀ p ∈ ps, wb p) → ((choice ps).transformer s).error = none →
      s.index ≤ ((choice ps).transformer s).index) ∧
    (∀ (p : Parser) (min : Int) (fuel : Nat) (s out : ParserState),
      s.error = none → wb p → manyRun p min fuel s = some out →
      out.error = none → s.index ≤ out.index) ∧
    (∀ (p j : Parser) (min : Int) (b : Bool) (fuel : Nat) (s out : ParserState),
      s.error = none → wb p → wb j →
      manyJoinRun p j min b fuel s = some out → out.error = none →
      s.index ≤ out.index) ∧
    (∀ (g : GenM) (s out : ParserState), GenM.allWB g → s.error = none →
      contextualRun g s = Except.ok out → out.error = none →
      s.index ≤ out.index) := by
  refine ⟨?_, ?_, ?_, ?_, ?_⟩
  · intro ps min s hs hwb
    have hinv := seqRun_inv s ps hwb
    exact ⟨sequenceOf_ok_index ps min s hs, hinv.2.1, hinv.2.2.1⟩
  · intro ps s hs hwb hok
    simp only [choice, hs] at hok ⊢
    exact choiceGo_mono s hs ps hwb hok
  · intro p min fuel s out hs hp hrun hok
    simp only [manyRun, hs] at hrun
    rcases hgo : manyGo p fuel s [] with _ | r
    · rw [hgo] at hrun
      simp at hrun
    · rw [hgo] at hrun
      simp only [Option.map_some', Option.some.injEq] at hrun
      by_cases hc : (r.1.length : Int) < min
      · rw [if_pos hc] at hrun
        rw [← hrun] at hok
        simp at hok
      · rw [if_neg hc] at hrun
        rw [← hrun]
        simp only [resultify_index]
        exact manyGo_mono p hp fuel s [] r.1 r.2 hs (by rw [hgo])
  · intro p j min b fuel s out hs hp hj hrun hok
    simp only [manyJoinRun, hs] at hrun
    rcases hgo : manyJoinGo p j b fuel true s [] 0 with _ | r
    · rw [hgo] at hrun
      simp at hrun
    · rw [hgo] at hrun
      simp only [Option.map_some', Option.some.injEq] at hrun
      by_cases hc : (r.2.2 : Int) < min
      · rw [if_pos hc] at hrun
        rw [← hrun] at hok
        simp at hok
      · rw [if_neg hc] at hrun
        rw [← hrun]
        simp only [resultify_index]
        exact manyJoinGo_mono p j hp hj b fuel true s [] r.1 r.2.1 0 r.2.2 hs
          (by rw [hgo])
  · intro g s out hwb hs hrun hok
    simp only [contextualRun, hs] at hrun
    exact contextualGo_mono g hwb s out hs hrun hok

/-- Witness for C2 (amended) at concrete inputs: `many digitP` on `"12a"`
moves from index 0 to index 2, and `sequenceOf [digitP]` on `"1"` ends at
the loop's `lastIndex`. -/
theorem c2_index_monotone_witness :
    (initSt "12a").index ≤
      (ParserState.mk "12a" 2
        (some (Val.list [some (Val.str "1"), some (Val.str "2")])) none).index ∧
    ((sequenceOf [digitP] (-1)).transformer (initSt "1")).index =
      (seqRun [digitP] (initSt "1")).lastIndex := by
  constructor
  · exact (c2_index_monotone).2.2.1 digitP 0 10 (initSt "12a")
      (ParserState.mk "12a" 2
        (some (Val.list [some (Val.str "1"), some (Val.str "2")])) none)
      rfl digitP_wb rfl rfl
  · exact ((c2_index_monotone).1 [digitP] (-1) (initSt "1") rfl
      (by intro q hq; simp at hq; subst hq; exact digitP_wb)).1 rfl

end DenoParsers
